import Mathlib

/-!
Shallow embedding of `pytorch_lightning/trainer/train_loop_mixin.py`
(`TrainerTrainLoopMixin`): the training control loop — `train`,
`run_training_epoch`, `run_training_batch` and the per-optimizer closure —
together with the pieces of trainer state they mutate.

Modelling conventions:
* Python float scalars (losses, accumulation counters, efficiency ratios)
  are embedded as `ℚ`; the control logic only adds, multiplies, divides and
  compares them, so the field of rationals is an exact model.
* Python dicts of metrics (string keys) are embedded as association lists
  with in-place-update insertion (`dinsert`), which reproduces dict key
  semantics including insertion-order preservation and later-wins updates.
* Collaborators that the loop only invokes (model forward/backward, the
  evaluation loop, logger, progress bar, LR schedulers, the early-stop
  callback, the accumulation scheduler) are modelled as pure functions and
  flags in `Config`; every call the loop makes to an effectful collaborator
  is recorded as an `Event` in an execution trace, in program order.
* `B` is the type of batches, `H` the type of hidden states carried between
  truncated-backprop splits (both are black boxes to the control loop).
-/

/-- Canonical output of `training_forward` (the ForwardDispatcher): the
processed `(loss, progress_bar_metrics, log_metrics, callback_metrics,
hiddens)` tuple that `optimizer_closure` destructures (source lines
337–341). -/
structure ForwardOutput (H : Type) where
  loss : ℚ
  progress_bar_metrics : List (String × ℚ)
  log_metrics : List (String × ℚ)
  callback_metrics : List (String × ℚ)
  hiddens : Option H
deriving DecidableEq

/-- One observable collaborator call made by the training loop, recorded in
program order. -/
inductive Event (B H : Type) where
  /-- a `training_forward` invocation with its arguments, in particular the
  hidden state handed to the model -/
  | forward (split_batch : B) (batch_nb opt_idx : Nat) (hiddens : Option H)
  /-- `model.backward` on the re-weighted closure loss -/
  | backward (batch_nb opt_idx : Nat) (loss : ℚ)
  /-- `model.optimizer_step(epoch, batch_nb, optimizer, opt_idx, closure)` -/
  | optStep (epoch batch_nb opt_idx : Nat)
  /-- `run_evaluation` after a training batch -/
  | runEvaluation (batch_nb : Nat)
  /-- `logger.save()` -/
  | loggerSave (batch_nb : Nat)
  /-- `log_metrics(batch_step_metrics, grad_norm_dic)` -/
  | logMetricsCall (batch_nb : Nat)
  /-- `lr_scheduler.step(epoch)` -/
  | lrStep (epoch : Nat)
  /-- `early_stop_callback.on_epoch_end(epoch, logs)` and the boolean it
  returned -/
  | earlyStopQuery (epoch : Nat) (should_stop : Bool)
deriving DecidableEq

/-- The trainer configuration and collaborators read by the training loop.
`training_forward` stands for the ForwardDispatcher (source lines 425–469):
its strategy selection and device transfer are calls into the model and
torch, so the loop sees it only through its canonical output tuple. -/
structure Config (B H : Type) where
  max_nb_epochs : Nat
  min_nb_epochs : Nat
  enable_early_stop : Bool
  fast_dev_run : Bool
  has_logger : Bool
  has_lr_schedulers : Bool
  proc_rank : Nat
  check_val_every_n_epoch : Nat
  val_check_batch : Nat
  nb_training_batches : Nat
  nb_val_batches : Nat
  log_save_interval : Nat
  row_log_interval : Nat
  track_grad_norm : Int
  truncated_bptt_steps : Option Nat
  n_optimizers : Nat
  train_dataloader : List (Option B)
  on_batch_start : Option (B → Int)
  tbptt_split_batch : B → Nat → List B
  training_forward : B → Nat → Nat → Option H → ForwardOutput H
  grad_norm : Int → List (String × ℚ)
  early_stop_on_epoch_end : Nat → List (String × ℚ) → Bool
  accum_on_epoch_begin : Nat → Nat → Nat

/-- The mutable trainer attributes touched by the training loop. -/
structure TState (H : Type) where
  current_epoch : Nat
  global_step : Nat
  total_batch_nb : Nat
  batch_loss_value : ℚ
  running_loss : List ℚ
  avg_loss : ℚ
  hiddens : Option H
  opt_accum : List ℚ
  accumulate_grad_batches : Nat
  total_batches : Nat
  callback_metrics : List (String × ℚ)
  progress_bar_metrics : List (String × ℚ)
deriving DecidableEq

/-- Python-dict assignment `d[k] = v`: replace in place if the key exists
(keeping insertion order), otherwise append at the end. -/
def dinsert : List (String × ℚ) → String → ℚ → List (String × ℚ)
  | [], k, v => [(k, v)]
  | p :: rest, k, v => if p.1 = k then (k, v) :: rest else p :: dinsert rest k v

/-- Python `d.update(e)` / iterated assignment of the entries of `e`. -/
def dupdate (d e : List (String × ℚ)) : List (String × ℚ) :=
  e.foldl (fun acc p => dinsert acc p.1 p.2) d

/-- Python `d.get(k)`. -/
def dlookup : List (String × ℚ) → String → Option ℚ
  | [], _ => none
  | p :: rest, k => if p.1 = k then some p.2 else dlookup rest k

/-- First-defined choice on optional values, used to state dict-merge laws. -/
def dorElse (a b : Option ℚ) : Option ℚ :=
  match a with
  | some v => some v
  | none => b

/-- Embedding of `numpy.mean` on a list of rationals. -/
def npMean (l : List ℚ) : ℚ := l.sum / (l.length : ℚ)

/-- Python slice `l[-n:]`: the last `n` elements. -/
def lastN (n : Nat) (l : List ℚ) : List ℚ := l.drop (l.length - n)

/-- What `model.on_batch_start(batch)` returns, if the hook is defined
(source lines 312–314). -/
def hookResponse {B H : Type} (cfg : Config B H) (b : B) : Option Int :=
  cfg.on_batch_start.map (fun f => f b)

/-- The local accumulators of one `run_training_batch` call: trainer state
plus the function-local `grad_norm_dic`, `all_log_metrics` and
`all_callback_metrics` (source lines 300–306). -/
structure BState (H : Type) where
  st : TState H
  grad_norm_dic : List (String × ℚ)
  all_log_metrics : List (List (String × ℚ))
  all_callback_metrics : List (List (String × ℚ))

/-- The body of `optimizer_closure` (source lines 332–370): forward, read
the efficiency ratio from the callback metrics (default 1.0), bump this
optimizer slot's accumulation counter, re-weight the loss, backward, record
metrics. Returns the re-weighted closure loss, the updated accumulators and
the trace of calls made. -/
def optimizer_closure {B H : Type} (cfg : Config B H) (batch_nb : Nat) (split_batch : B)
    (opt_idx : Nat) (s : BState H) : ℚ × BState H × List (Event B H) :=
  let output := cfg.training_forward split_batch batch_nb opt_idx s.st.hiddens
  let eff := (dlookup output.callback_metrics "batch_loss_efficiency_ratio").getD 1
  let closure_loss_weight := eff / (s.st.accumulate_grad_batches : ℚ)
  let closure_loss := output.loss * closure_loss_weight
  let st1 := { s.st with
    hiddens := output.hiddens
    opt_accum := s.st.opt_accum.set opt_idx (s.st.opt_accum.getD opt_idx 0 + eff)
    progress_bar_metrics := dupdate s.st.progress_bar_metrics output.progress_bar_metrics }
  (closure_loss,
   { s with
      st := st1
      all_callback_metrics := s.all_callback_metrics ++ [output.callback_metrics]
      all_log_metrics := s.all_log_metrics ++ [output.log_metrics] },
   [Event.forward split_batch batch_nb opt_idx s.st.hiddens,
    Event.backward batch_nb opt_idx closure_loss])

/-- One iteration of the per-optimizer loop of `run_training_batch` (source
lines 329–406): invoke the closure, accumulate `batch_loss_value`, and when
this slot's accumulation counter has reached `accumulate_grad_batches`,
reset it, refresh the gradient-norm diagnostics, clip, call
`optimizer_step`, append to the running-loss window and zero
`batch_loss_value`. -/
def opt_iteration {B H : Type} (cfg : Config B H) (batch_nb : Nat) (split_batch : B)
    (opt_idx : Nat) (s : BState H) : BState H × List (Event B H) :=
  let (loss, s1, ev1) := optimizer_closure cfg batch_nb split_batch opt_idx s
  let st2 := { s1.st with batch_loss_value := s1.st.batch_loss_value + loss }
  if (st2.accumulate_grad_batches : ℚ) ≤ st2.opt_accum.getD opt_idx 0 then
    let st3 := { st2 with opt_accum := st2.opt_accum.set opt_idx 0 }
    let gnd := if batch_nb % cfg.row_log_interval == 0 && decide (0 < cfg.track_grad_norm)
      then cfg.grad_norm cfg.track_grad_norm else s1.grad_norm_dic
    let running := st3.running_loss ++ [st3.batch_loss_value]
    let st4 := { st3 with
      running_loss := running
      batch_loss_value := 0
      avg_loss := npMean (lastN 100 running) }
    ({ s1 with st := st4, grad_norm_dic := gnd },
     ev1 ++ [Event.optStep st2.current_epoch batch_nb opt_idx])
  else
    ({ s1 with st := st2 }, ev1)

/-- The inner `for opt_idx, optimizer in enumerate(self.optimizers)` loop
(source line 329), over the list of optimizer indices. -/
def opt_loop {B H : Type} (cfg : Config B H) (batch_nb : Nat) (split_batch : B) :
    List Nat → BState H → BState H × List (Event B H)
  | [], s => (s, [])
  | i :: rest, s =>
    let (s1, e1) := opt_iteration cfg batch_nb split_batch i s
    let (s2, e2) := opt_loop cfg batch_nb split_batch rest s1
    (s2, e1 ++ e2)

/-- The outer `for split_nb, split_batch in enumerate(splits)` loop (source
line 325). -/
def split_loop {B H : Type} (cfg : Config B H) (batch_nb : Nat) :
    List B → BState H → BState H × List (Event B H)
  | [], s => (s, [])
  | sp :: rest, s =>
    let (s1, e1) := opt_loop cfg batch_nb sp (List.range cfg.n_optimizers) s
    let (s2, e2) := split_loop cfg batch_nb rest s1
    (s2, e1 ++ e2)

/-- What one `run_training_batch` call returns (source lines 309, 317, 423),
together with the trainer state it leaves behind and its call trace. -/
structure BatchResult (B H : Type) where
  result : Int
  grad_norm_dic : List (String × ℚ)
  batch_step_metrics : List (String × ℚ)
  st : TState H
  events : List (Event B H)
deriving DecidableEq

/-- Embedding of `run_training_batch` (source lines 298–423): handle the absent batch,
fire the batch-start hook (aborting with the -1 sentinel), determine the
splits, reset the hidden state, run the split/optimizer loops, then collapse
the collected log metrics (later entries override earlier ones) and merge
the callback metrics into persistent state. -/
def run_training_batch {B H : Type} (cfg : Config B H) (st : TState H)
    (batch : Option B) (batch_nb : Nat) : BatchResult B H :=
  match batch with
  | none => ⟨0, [], [], st, []⟩
  | some b =>
    if hookResponse cfg b == some (-1) then ⟨-1, [], [], st, []⟩
    else
      let splits := match cfg.truncated_bptt_steps with
        | none => [b]
        | some steps => cfg.tbptt_split_batch b steps
      let (s1, evs) := split_loop cfg batch_nb splits ⟨{ st with hiddens := none }, [], [], []⟩
      let all_log := dupdate [] s1.all_log_metrics.flatten
      let stF := { s1.st with
        callback_metrics := dupdate s1.st.callback_metrics s1.all_callback_metrics.flatten }
      ⟨0, s1.grad_norm_dic, all_log, stF, evs⟩

/-- The result of one iteration of the batch loop of `run_training_epoch`
(source lines 241–291): updated trainer state, the calls made, and whether
the loop breaks after this batch. -/
structure EpochStepResult (B H : Type) where
  st : TState H
  events : List (Event B H)
  brk : Bool
deriving DecidableEq

/-- One iteration of the batch loop of `run_training_epoch` (source lines
241–291): run the batch, decide the validation / log-save / metric-log
cadences, bump `global_step` and `total_batch_nb`, and decide whether the
loop ends (early-stop sentinel, `fast_dev_run`, or the training-batch
limit). -/
def epoch_step {B H : Type} (cfg : Config B H) (st : TState H) (batch : Option B)
    (batch_nb : Nat) : EpochStepResult B H :=
  let r := run_training_batch cfg st batch batch_nb
  let early_stop_epoch := r.result == -1
  let is_val_check_batch := (batch_nb + 1) % cfg.val_check_batch == 0
  let can_check_epoch := (r.st.current_epoch + 1) % cfg.check_val_every_n_epoch == 0
  let should_check_val := (is_val_check_batch || early_stop_epoch) && can_check_epoch
  let ev1 := if cfg.fast_dev_run || should_check_val then [Event.runEvaluation batch_nb] else []
  let should_save_log := (batch_nb + 1) % cfg.log_save_interval == 0 || early_stop_epoch
  let ev2 := if (should_save_log || cfg.fast_dev_run) && (cfg.proc_rank == 0 && cfg.has_logger)
    then [Event.loggerSave batch_nb] else []
  let should_log_metrics := batch_nb % cfg.row_log_interval == 0 || early_stop_epoch
  let ev3 := if should_log_metrics || cfg.fast_dev_run then [Event.logMetricsCall batch_nb] else []
  let st1 := { r.st with
    global_step := r.st.global_step + 1
    total_batch_nb := r.st.total_batch_nb + 1 }
  ⟨st1, r.events ++ ev1 ++ ev2 ++ ev3,
   early_stop_epoch || cfg.fast_dev_run || decide (cfg.nb_training_batches ≤ batch_nb)⟩

/-- The batch loop of `run_training_epoch`, iterating `epoch_step` over the
enumerated batches of the dataloader and honoring the break conditions. -/
def run_epoch_go {B H : Type} (cfg : Config B H) :
    TState H → List (Option B) → Nat → TState H × List (Event B H)
  | st, [], _ => (st, [])
  | st, b :: rest, n =>
    let r := epoch_step cfg st b n
    if r.brk then (r.st, r.events)
    else
      let (st2, evs) := run_epoch_go cfg r.st rest (n + 1)
      (st2, r.events ++ evs)

/-- Embedding of `run_training_epoch` (source lines 234–296): the epoch start/end hooks
are model calls with no loop-visible state, so the embedding is the batch
loop over the training dataloader. -/
def run_training_epoch {B H : Type} (cfg : Config B H) (st : TState H) :
    TState H × List (Event B H) :=
  run_epoch_go cfg st cfg.train_dataloader 0

/-- The per-epoch body of `train` (source lines 167–216): set
`current_epoch`, compute the validation cadence and `total_batches`, zero
the loss accumulator, let the accumulation scheduler adjust
`accumulate_grad_batches`, run the epoch, then step the LR schedulers. -/
def train_epoch {B H : Type} (cfg : Config B H) (st : TState H) (epoch_nb : Nat) :
    TState H × List (Event B H) :=
  let st0 := { st with current_epoch := epoch_nb }
  let is_val_epoch := (st0.current_epoch + 1) % cfg.check_val_every_n_epoch == 0
  let val_checks_per_epoch :=
    if is_val_epoch then cfg.nb_training_batches / cfg.val_check_batch else 0
  let st1 := { st0 with
    total_batches := cfg.nb_training_batches + cfg.nb_val_batches * val_checks_per_epoch
    batch_loss_value := 0
    accumulate_grad_batches := cfg.accum_on_epoch_begin epoch_nb st0.accumulate_grad_batches }
  let (st2, evs) := run_training_epoch cfg st1
  let ev_lr := if cfg.has_lr_schedulers then [Event.lrStep st2.current_epoch] else []
  (st2, evs ++ ev_lr)

/-- The early-stopping block at the end of each epoch of `train` (source
lines 218–227): the callback is queried when early stop is enabled and
either the strict minimum-epoch condition holds or `fast_dev_run` is set,
but training stops only when the callback said stop **and** the
minimum-epoch condition holds. -/
def early_stop_decision {B H : Type} (cfg : Config B H) (st : TState H) (epoch_nb : Nat) :
    Bool × List (Event B H) :=
  let met_min_epochs := decide (cfg.min_nb_epochs < epoch_nb)
  if cfg.enable_early_stop && (met_min_epochs || cfg.fast_dev_run) then
    let should_stop := cfg.early_stop_on_epoch_end epoch_nb st.callback_metrics
    (should_stop && met_min_epochs, [Event.earlyStopQuery epoch_nb should_stop])
  else (false, [])

/-- The outcome of `train`: final state, call trace, whether the epoch loop
was halted by early stopping, and the two finalization effects — closing the
progress bar and `logger.finalize("success")`. -/
structure TrainResult (B H : Type) where
  st : TState H
  events : List (Event B H)
  stopped : Bool
  progress_closed : Bool
  finalized_success : Bool
deriving DecidableEq

/-- The epoch loop of `train` (source lines 166–232) over the list of
remaining epoch numbers: run each epoch body, evaluate the early-stop
decision, and on halt close the progress bar and return without notifying
the logger; after a full run close the progress bar and call
`logger.finalize("success")` when a logger is configured. -/
def train_go {B H : Type} (cfg : Config B H) : TState H → List Nat → TrainResult B H
  | st, [] => ⟨st, [], false, true, cfg.has_logger⟩
  | st, e :: rest =>
    let (st1, evs) := train_epoch cfg st e
    let (stop, ev_d) := early_stop_decision cfg st1 e
    if stop then ⟨st1, evs ++ ev_d, true, true, false⟩
    else
      let r := train_go cfg st1 rest
      ⟨r.st, evs ++ ev_d ++ r.events, r.stopped, r.progress_closed, r.finalized_success⟩

/-- Embedding of `train` (source lines 165–232): `for epoch_nb in range(self.current_epoch,
self.max_nb_epochs)`. -/
def train {B H : Type} (cfg : Config B H) (st : TState H) : TrainResult B H :=
  train_go cfg st (List.range' st.current_epoch (cfg.max_nb_epochs - st.current_epoch))

/-- Whether an event is a model-computation call (forward / backward /
optimizer step), i.e. one that `run_training_batch` itself can emit. -/
def Event.isCompute {B H : Type} : Event B H → Bool
  | .forward .. => true
  | .backward .. => true
  | .optStep .. => true
  | _ => false

/-- The batch index an event belongs to, when it has one. -/
def Event.batchTag {B H : Type} : Event B H → Option Nat
  | .forward _ n _ _ => some n
  | .backward n _ _ => some n
  | .optStep _ n _ => some n
  | .runEvaluation n => some n
  | .loggerSave n => some n
  | .logMetricsCall n => some n
  | .lrStep _ => none
  | .earlyStopQuery _ _ => none

theorem mem_ite_singleton {α : Type} (c : Prop) [Decidable c] (x y : α) :
    x ∈ (if c then [y] else []) ↔ c ∧ x = y := by
  split <;> simp_all

theorem opt_iteration_fixed {B H : Type} (cfg : Config B H) (n : Nat) (sp : B) (i : Nat)
    (s : BState H) :
    (opt_iteration cfg n sp i s).1.st.global_step = s.st.global_step ∧
    (opt_iteration cfg n sp i s).1.st.total_batch_nb = s.st.total_batch_nb ∧
    (opt_iteration cfg n sp i s).1.st.current_epoch = s.st.current_epoch ∧
    (opt_iteration cfg n sp i s).1.st.accumulate_grad_batches = s.st.accumulate_grad_batches := by
  simp only [opt_iteration, optimizer_closure]
  split <;> simp

theorem opt_loop_fixed {B H : Type} (cfg : Config B H) (n : Nat) (sp : B) :
    ∀ (l : List Nat) (s : BState H),
    (opt_loop cfg n sp l s).1.st.global_step = s.st.global_step ∧
    (opt_loop cfg n sp l s).1.st.total_batch_nb = s.st.total_batch_nb ∧
    (opt_loop cfg n sp l s).1.st.current_epoch = s.st.current_epoch ∧
    (opt_loop cfg n sp l s).1.st.accumulate_grad_batches = s.st.accumulate_grad_batches := by
  intro l
  induction l with
  | nil => intro s; simp [opt_loop]
  | cons i rest ih =>
    intro s
    obtain ⟨h1, h2, h3, h4⟩ := opt_iteration_fixed cfg n sp i s
    obtain ⟨g1, g2, g3, g4⟩ := ih (opt_iteration cfg n sp i s).1
    simp only [opt_loop]
    exact ⟨g1.trans h1, g2.trans h2, g3.trans h3, g4.trans h4⟩

theorem split_loop_fixed {B H : Type} (cfg : Config B H) (n : Nat) :
    ∀ (l : List B) (s : BState H),
    (split_loop cfg n l s).1.st.global_step = s.st.global_step ∧
    (split_loop cfg n l s).1.st.total_batch_nb = s.st.total_batch_nb ∧
    (split_loop cfg n l s).1.st.current_epoch = s.st.current_epoch ∧
    (split_loop cfg n l s).1.st.accumulate_grad_batches = s.st.accumulate_grad_batches := by
  intro l
  induction l with
  | nil => intro s; simp [split_loop]
  | cons sp rest ih =>
    intro s
    obtain ⟨h1, h2, h3, h4⟩ := opt_loop_fixed cfg n sp (List.range cfg.n_optimizers) s
    obtain ⟨g1, g2, g3, g4⟩ := ih (opt_loop cfg n sp (List.range cfg.n_optimizers) s).1
    simp only [split_loop]
    exact ⟨g1.trans h1, g2.trans h2, g3.trans h3, g4.trans h4⟩

theorem run_training_batch_fixed {B H : Type} (cfg : Config B H) (st : TState H)
    (b : Option B) (n : Nat) :
    (run_training_batch cfg st b n).st.global_step = st.global_step ∧
    (run_training_batch cfg st b n).st.total_batch_nb = st.total_batch_nb ∧
    (run_training_batch cfg st b n).st.current_epoch = st.current_epoch ∧
    (run_training_batch cfg st b n).st.accumulate_grad_batches = st.accumulate_grad_batches := by
  match b with
  | none => simp [run_training_batch]
  | some b =>
    simp only [run_training_batch]
    split
    · simp
    · obtain ⟨h1, h2, h3, h4⟩ := split_loop_fixed cfg n
        (match cfg.truncated_bptt_steps with
          | none => [b]
          | some steps => cfg.tbptt_split_batch b steps)
        ⟨{ st with hiddens := none }, [], [], []⟩
      simp_all

theorem opt_iteration_events {B H : Type} (cfg : Config B H) (n : Nat) (sp : B) (i : Nat)
    (s : BState H) :
    ∀ ev ∈ (opt_iteration cfg n sp i s).2, ev.isCompute = true ∧ ev.batchTag = some n := by
  intro ev hev
  simp only [opt_iteration, optimizer_closure] at hev
  split at hev <;>
    simp only [List.mem_append, List.mem_cons, List.not_mem_nil, or_false] at hev
  · rcases hev with (h | h) | h <;> subst h <;> simp [Event.isCompute, Event.batchTag]
  · rcases hev with h | h <;> subst h <;> simp [Event.isCompute, Event.batchTag]

theorem opt_loop_events {B H : Type} (cfg : Config B H) (n : Nat) (sp : B) :
    ∀ (l : List Nat) (s : BState H),
    ∀ ev ∈ (opt_loop cfg n sp l s).2, ev.isCompute = true ∧ ev.batchTag = some n := by
  intro l
  induction l with
  | nil => intro s ev hev; simp [opt_loop] at hev
  | cons i rest ih =>
    intro s ev hev
    simp only [opt_loop, List.mem_append] at hev
    rcases hev with h | h
    · exact opt_iteration_events cfg n sp i s ev h
    · exact ih _ ev h

theorem split_loop_events {B H : Type} (cfg : Config B H) (n : Nat) :
    ∀ (l : List B) (s : BState H),
    ∀ ev ∈ (split_loop cfg n l s).2, ev.isCompute = true ∧ ev.batchTag = some n := by
  intro l
  induction l with
  | nil => intro s ev hev; simp [split_loop] at hev
  | cons sp rest ih =>
    intro s ev hev
    simp only [split_loop, List.mem_append] at hev
    rcases hev with h | h
    · exact opt_loop_events cfg n sp _ s ev h
    · exact ih _ ev h

theorem run_training_batch_events {B H : Type} (cfg : Config B H) (st : TState H)
    (b : Option B) (n : Nat) :
    ∀ ev ∈ (run_training_batch cfg st b n).events,
      ev.isCompute = true ∧ ev.batchTag = some n := by
  intro ev hev
  match b with
  | none => simp [run_training_batch] at hev
  | some b =>
    simp only [run_training_batch] at hev
    split at hev
    · simp at hev
    · exact split_loop_events cfg n _ _ ev hev

theorem epoch_step_events {B H : Type} (cfg : Config B H) (st : TState H)
    (b : Option B) (n : Nat) :
    ∀ ev ∈ (epoch_step cfg st b n).events, ev.batchTag = some n := by
  intro ev hev
  simp only [epoch_step, List.mem_append] at hev
  rcases hev with ((h | h) | h) | h
  · exact (run_training_batch_events cfg st b n ev h).2
  · rw [mem_ite_singleton] at h
    simp [h.2, Event.batchTag]
  · rw [mem_ite_singleton] at h
    simp [h.2, Event.batchTag]
  · rw [mem_ite_singleton] at h
    simp [h.2, Event.batchTag]

theorem run_epoch_go_events {B H : Type} (cfg : Config B H) :
    ∀ (batches : List (Option B)) (st : TState H) (n : Nat),
    ∀ ev ∈ (run_epoch_go cfg st batches n).2, ∃ m, n ≤ m ∧ ev.batchTag = some m := by
  intro batches
  induction batches with
  | nil => intro st n ev hev; simp [run_epoch_go] at hev
  | cons b rest ih =>
    intro st n ev hev
    simp only [run_epoch_go] at hev
    split at hev
    · exact ⟨n, le_refl n, epoch_step_events cfg st b n ev hev⟩
    · simp only [List.mem_append] at hev
      rcases hev with h | h
      · exact ⟨n, le_refl n, epoch_step_events cfg st b n ev h⟩
      · obtain ⟨m, hm, htag⟩ := ih _ (n + 1) ev h
        exact ⟨m, by omega, htag⟩

theorem train_go_finalize {B H : Type} (cfg : Config B H) :
    ∀ (epochs : List Nat) (st : TState H),
    (train_go cfg st epochs).finalized_success
        = (!(train_go cfg st epochs).stopped && cfg.has_logger) ∧
    (train_go cfg st epochs).progress_closed = true := by
  intro epochs
  induction epochs with
  | nil => intro st; simp [train_go]
  | cons e rest ih =>
    intro st
    simp only [train_go]
    split
    · simp
    · exact ih _

/-- A model forward stub used by concrete runs: zero loss, no metrics, no
hidden state. -/
def fwdW : Nat → Nat → Nat → Option Nat → ForwardOutput Nat :=
  fun _ _ _ _ => ⟨0, [], [], [], none⟩

/-- A concrete trainer configuration: debug/fast mode with early stopping
enabled, an always-stop early-stop callback, and `min_nb_epochs = 5`, so
that the minimum-epoch condition fails at epoch 0. -/
def cfgW : Config Nat Nat where
  max_nb_epochs := 1
  min_nb_epochs := 5
  enable_early_stop := true
  fast_dev_run := true
  has_logger := true
  has_lr_schedulers := false
  proc_rank := 0
  check_val_every_n_epoch := 1
  val_check_batch := 1
  nb_training_batches := 5
  nb_val_batches := 0
  log_save_interval := 1
  row_log_interval := 1
  track_grad_norm := -1
  truncated_bptt_steps := none
  n_optimizers := 1
  train_dataloader := [some 0]
  on_batch_start := none
  tbptt_split_batch := fun b _ => [b]
  training_forward := fwdW
  grad_norm := fun _ => []
  early_stop_on_epoch_end := fun _ _ => true
  accum_on_epoch_begin := fun _ k => k

/-- A fresh trainer state: everything zeroed, one optimizer slot,
`accumulate_grad_batches = 1`. -/
def stW : TState Nat :=
  ⟨0, 0, 0, 0, [], 0, none, [0], 1, 0, [], []⟩

/-- C1, counterexample. In debug/fast mode with early stopping enabled and
`min_nb_epochs = 5`, the early-stop callback is queried at the end of epoch
0 and signals stop, yet training does **not** halt: it runs to the end of
the epoch range and notifies the logger of success, because the code
computes `stop = should_stop and met_min_epochs` even in fast mode. -/
theorem early_stop_fast_dev_run_counterexample :
    (train cfgW stW).stopped = false ∧
    Event.earlyStopQuery 0 true ∈ (train cfgW stW).events ∧
    (train cfgW stW).finalized_success = true :=
  of_decide_eq_true (by with_unfolding_all rfl)

/-- C1, amended. The early-stop evaluator is queried when early stopping is
enabled and either `epoch > min_nb_epochs` or debug/fast mode is set, but
training halts only when the evaluator signals stop **and** the epoch number
is strictly greater than `min_nb_epochs` — in debug/fast mode exactly as
outside it; when it does decide to halt, the epoch loop of `train` stops at
that epoch. -/
theorem early_stop_requires_min_epochs {B H : Type} (cfg : Config B H) (st : TState H)
    (e : Nat) (rest : List Nat) :
    ((early_stop_decision cfg st e).1 = true ↔
      (cfg.enable_early_stop = true ∧ cfg.min_nb_epochs < e ∧
       cfg.early_stop_on_epoch_end e st.callback_metrics = true)) ∧
    ((early_stop_decision cfg (train_epoch cfg st e).1 e).1 = true →
      (train_go cfg st (e :: rest)).stopped = true) := by
  constructor
  · simp only [early_stop_decision]
    split
    · rename_i h
      simp only [Bool.and_eq_true, Bool.or_eq_true, decide_eq_true_eq] at h
      constructor
      · intro hs
        simp only [Bool.and_eq_true, decide_eq_true_eq] at hs
        exact ⟨h.1, hs.2, hs.1⟩
      · intro ⟨h1, h2, h3⟩
        simp [h2, h3]
    · rename_i h
      simp only [Bool.and_eq_true, Bool.or_eq_true, decide_eq_true_eq, not_and, not_or] at h
      constructor
      · intro hs; simp at hs
      · intro ⟨h1, h2, h3⟩
        exact absurd ((h h1).1) (by omega)
  · intro hstop
    simp only [train_go]
    split
    · simp
    · rename_i hns
      exact absurd (by simpa using hstop) (by simpa using hns)

/-- A variant of `cfgW` out of debug/fast mode with `min_nb_epochs = 0`, so
the early-stop decision can actually fire at epoch 1. -/
def cfgW2 : Config Nat Nat :=
  { cfgW with fast_dev_run := false, min_nb_epochs := 0, max_nb_epochs := 2 }

/-- Witness for `early_stop_requires_min_epochs` at a concrete input where
the decision fires. -/
theorem early_stop_requires_min_epochs_witness :
    ((early_stop_decision cfgW2 stW 1).1 = true ↔
      (cfgW2.enable_early_stop = true ∧ cfgW2.min_nb_epochs < 1 ∧
       cfgW2.early_stop_on_epoch_end 1 stW.callback_metrics = true)) ∧
    (train_go cfgW2 stW [1]).stopped = true :=
  ⟨(early_stop_requires_min_epochs cfgW2 stW 1 []).1,
   (early_stop_requires_min_epochs cfgW2 stW 1 []).2
     (of_decide_eq_true (by with_unfolding_all rfl))⟩

/-- C9. `logger.finalize("success")` is sent exactly when the epoch loop of
`train` runs through without the early-stop decision halting it and a
logger is configured; the progress bar is closed on both the halting and
the completing path. -/
theorem logger_finalize_on_success {B H : Type} (cfg : Config B H) (st : TState H) :
    ((train cfg st).finalized_success = true ↔
      ((train cfg st).stopped = false ∧ cfg.has_logger = true)) ∧
    (train cfg st).progress_closed = true := by
  obtain ⟨h1, h2⟩ :=
    train_go_finalize cfg (List.range' st.current_epoch (cfg.max_nb_epochs - st.current_epoch)) st
  refine ⟨?_, h2⟩
  simp only [train] at h1 ⊢
  rw [h1]
  simp [Bool.and_eq_true, Bool.not_eq_true']

/-- C4. When the model's `on_batch_start` hook returns the sentinel -1,
`run_training_batch` returns `(-1, {}, {})` with the trainer state untouched
and an empty call trace — in particular zero `training_forward` and zero
`backward` invocations — and the batch loop of the epoch terminates right
after that batch's post-processing, ignoring all remaining batches. -/
theorem batch_start_sentinel_skips_batch {B H : Type} (cfg : Config B H) (st : TState H)
    (b : B) (n : Nat) (rest : List (Option B)) (h : hookResponse cfg b = some (-1)) :
    run_training_batch cfg st (some b) n = ⟨-1, [], [], st, []⟩ ∧
    (run_training_batch cfg st (some b) n).events = [] ∧
    run_epoch_go cfg st (some b :: rest) n = run_epoch_go cfg st [some b] n := by
  have hbatch : run_training_batch cfg st (some b) n = ⟨-1, [], [], st, []⟩ := by
    simp [run_training_batch, h]
  have hbrk : (epoch_step cfg st (some b) n).brk = true := by
    simp [epoch_step, hbatch]
  refine ⟨hbatch, by simp [hbatch], ?_⟩
  simp only [run_epoch_go, hbrk, if_true]

/-- A configuration whose batch-start hook always returns -1. -/
def cfgSentinel : Config Nat Nat :=
  { cfgW with on_batch_start := some (fun _ => -1), fast_dev_run := false }

/-- Witness for `batch_start_sentinel_skips_batch` at a concrete input. -/
theorem batch_start_sentinel_skips_batch_witness :
    run_training_batch cfgSentinel stW (some 0) 0 = ⟨-1, [], [], stW, []⟩ ∧
    (run_training_batch cfgSentinel stW (some 0) 0).events = [] ∧
    run_epoch_go cfgSentinel stW [some 0, some 1] 0 = run_epoch_go cfgSentinel stW [some 0] 0 :=
  batch_start_sentinel_skips_batch cfgSentinel stW 0 0 [some 1] rfl

/-- C10. Even when a batch is skipped by the -1 sentinel from
`on_batch_start`, the epoch loop still increments both `global_step` and
`total_batch_nb` by 1 for that batch before it breaks. -/
theorem sentinel_batch_still_counts {B H : Type} (cfg : Config B H) (st : TState H)
    (b : B) (n : Nat) (rest : List (Option B)) (h : hookResponse cfg b = some (-1)) :
    (run_epoch_go cfg st (some b :: rest) n).1.global_step = st.global_step + 1 ∧
    (run_epoch_go cfg st (some b :: rest) n).1.total_batch_nb = st.total_batch_nb + 1 := by
  have hbatch : run_training_batch cfg st (some b) n = ⟨-1, [], [], st, []⟩ := by
    simp [run_training_batch, h]
  have hbrk : (epoch_step cfg st (some b) n).brk = true := by
    simp [epoch_step, hbatch]
  simp only [run_epoch_go, hbrk, if_true]
  simp [epoch_step, hbatch]

/-- Witness for `sentinel_batch_still_counts` at a concrete input. -/
theorem sentinel_batch_still_counts_witness :
    (run_epoch_go cfgSentinel stW [some 0, some 1] 0).1.global_step = stW.global_step + 1 ∧
    (run_epoch_go cfgSentinel stW [some 0, some 1] 0).1.total_batch_nb
        = stW.total_batch_nb + 1 :=
  sentinel_batch_still_counts cfgSentinel stW 0 0 [some 1] rfl

/-- C5. `run_evaluation` is called after a training batch exactly when
debug/fast mode is set, or when `((batch_nb+1) % val_check_batch == 0` or
the batch signalled early-stop with the -1 sentinel`)` and
`(current_epoch+1) % check_val_every_n_epoch == 0`. -/
theorem validation_cadence {B H : Type} (cfg : Config B H) (st : TState H) (b : Option B)
    (n : Nat) :
    Event.runEvaluation n ∈ (epoch_step cfg st b n).events ↔
      (cfg.fast_dev_run = true ∨
        ((((n + 1) % cfg.val_check_batch = 0) ∨ (run_training_batch cfg st b n).result = -1) ∧
          (st.current_epoch + 1) % cfg.check_val_every_n_epoch = 0)) := by
  have hpres := (run_training_batch_fixed cfg st b n).2.2.1
  constructor
  · intro hmem
    simp only [epoch_step, List.mem_append, mem_ite_singleton] at hmem
    rcases hmem with ((hm | hm) | hm) | hm
    · have hc := (run_training_batch_events cfg st b n _ hm).1
      simp [Event.isCompute] at hc
    · have hc := hm.1
      simp only [Bool.or_eq_true, Bool.and_eq_true, beq_iff_eq] at hc
      rcases hc with hfast | ⟨hval, hepoch⟩
      · exact Or.inl hfast
      · exact Or.inr ⟨hval, by rw [← hpres]; exact hepoch⟩
    · simp at hm
    · simp at hm
  · intro hc
    simp only [epoch_step, List.mem_append, mem_ite_singleton]
    refine Or.inl (Or.inl (Or.inr ⟨?_, by simp⟩))
    simp only [Bool.or_eq_true, Bool.and_eq_true, beq_iff_eq]
    rcases hc with hfast | ⟨hval, hep⟩
    · exact Or.inl hfast
    · exact Or.inr ⟨hval, by rw [hpres]; exact hep⟩

theorem run_training_batch_result {B H : Type} (cfg : Config B H) (st : TState H) (b : B)
    (n : Nat) (h : hookResponse cfg b ≠ some (-1)) :
    (run_training_batch cfg st (some b) n).result = 0 := by
  have hb : (hookResponse cfg b == some (-1)) = false := beq_eq_false_iff_ne.mpr h
  simp [run_training_batch, hb]

theorem epoch_step_increments {B H : Type} (cfg : Config B H) (st : TState H) (b : Option B)
    (n : Nat) :
    (epoch_step cfg st b n).st.global_step = st.global_step + 1 ∧
    (epoch_step cfg st b n).st.total_batch_nb = st.total_batch_nb + 1 ∧
    (epoch_step cfg st b n).st.current_epoch = st.current_epoch ∧
    (epoch_step cfg st b n).st.accumulate_grad_batches = st.accumulate_grad_batches := by
  obtain ⟨h1, h2, h3, h4⟩ := run_training_batch_fixed cfg st b n
  simp [epoch_step, h1, h2, h3, h4]

theorem run_epoch_go_step_count {B H : Type} (cfg : Config B H)
    (hfast : cfg.fast_dev_run = false) :
    ∀ (batches : List B) (n : Nat) (st : TState H),
    (∀ b ∈ batches, hookResponse cfg b ≠ some (-1)) →
    n + batches.length ≤ cfg.nb_training_batches →
    (run_epoch_go cfg st (batches.map some) n).1.global_step
        = st.global_step + batches.length := by
  intro batches
  induction batches with
  | nil => intro n st _ _; simp [run_epoch_go]
  | cons b rest ih =>
    intro n st hhook hlen
    have hres := run_training_batch_result cfg st b n (hhook b (by simp))
    have hbrk : (epoch_step cfg st (some b) n).brk = false := by
      simp only [epoch_step, hres, hfast]
      simp only [List.length_cons] at hlen
      simp
      omega
    simp only [List.map_cons, run_epoch_go, hbrk, Bool.false_eq_true, if_false]
    have hrest := ih (n + 1) (epoch_step cfg st (some b) n).st
      (fun x hx => hhook x (by simp [hx]))
      (by simp only [List.length_cons] at hlen; omega)
    simp only [List.length_cons]
    rw [hrest, (epoch_step_increments cfg st (some b) n).1]
    omega

/-- C2. In an epoch-loop run over `N` batches that all complete fully (no
-1 sentinel, no absent batch, no batch-limit break, not in debug/fast
mode), `global_step` ends equal to `N` when it started at 0; moreover
`run_training_batch` itself never changes `global_step` — so the increment
is independent of the number of optimizers and of splits — and every
iteration of the epoch loop increments it by exactly 1, so it never
decreases and never skips a value. -/
theorem global_step_counts_batches {B H : Type} (cfg : Config B H) (st : TState H)
    (batches : List B) (hfast : cfg.fast_dev_run = false)
    (hhook : ∀ b ∈ batches, hookResponse cfg b ≠ some (-1))
    (hlen : batches.length ≤ cfg.nb_training_batches)
    (hgs : st.global_step = 0) :
    (run_epoch_go cfg st (batches.map some) 0).1.global_step = batches.length ∧
    (∀ (st2 : TState H) (b : Option B) (n : Nat),
      (run_training_batch cfg st2 b n).st.global_step = st2.global_step) ∧
    (∀ (st2 : TState H) (b : Option B) (n : Nat),
      (epoch_step cfg st2 b n).st.global_step = st2.global_step + 1) := by
  refine ⟨?_, fun st2 b n => (run_training_batch_fixed cfg st2 b n).1,
    fun st2 b n => (epoch_step_increments cfg st2 b n).1⟩
  rw [run_epoch_go_step_count cfg hfast batches 0 st hhook (by omega), hgs]
  omega

/-- Variant of `cfgW` out of debug/fast mode, used by concrete non-fast runs. -/
def cfgSlow : Config Nat Nat := { cfgW with fast_dev_run := false }

/-- Witness for `global_step_counts_batches` on a concrete 3-batch epoch. -/
theorem global_step_counts_batches_witness :
    (run_epoch_go cfgSlow stW ([0, 1, 2].map some) 0).1.global_step = [0, 1, 2].length :=
  (global_step_counts_batches cfgSlow stW [0, 1, 2] rfl
    (by intro b _; simp [hookResponse, cfgSlow, cfgW]) (by decide) rfl).1

theorem dlookup_dinsert (d : List (String × ℚ)) (k k2 : String) (v : ℚ) :
    dlookup (dinsert d k v) k2 = if k2 = k then some v else dlookup d k2 := by
  induction d with
  | nil =>
    by_cases h : k2 = k
    · simp [dinsert, dlookup, h]
    · have h' : ¬(k = k2) := fun hh => h hh.symm
      simp [dinsert, dlookup, h, h']
  | cons p rest ih =>
    by_cases h1 : p.1 = k
    · by_cases h2 : k2 = k
      · simp [dinsert, dlookup, h1, h2]
      · have h2' : ¬(k = k2) := fun hh => h2 hh.symm
        have h3 : ¬(p.1 = k2) := by rw [h1]; exact h2'
        simp [dinsert, dlookup, h1, h2, h2', h3]
    · by_cases h2 : k2 = k
      · subst h2
        have h3 : ¬(p.1 = k2) := h1
        simp [dinsert, dlookup, h1, h3, ih]
      · by_cases h3 : p.1 = k2 <;> simp [dinsert, dlookup, h1, h2, h3, ih]

theorem dlookup_eq_none_of_not_mem (d : List (String × ℚ)) (k : String)
    (h : k ∉ d.map Prod.fst) : dlookup d k = none := by
  induction d with
  | nil => rfl
  | cons p rest ih =>
    simp only [List.map_cons, List.mem_cons] at h
    push_neg at h
    simp only [dlookup]
    rw [if_neg (fun hh => h.1 hh.symm)]
    exact ih h.2

theorem dorElse_none (a : Option ℚ) : dorElse a none = a := by
  cases a <;> rfl

theorem dupdate_append (d e1 e2 : List (String × ℚ)) :
    dupdate d (e1 ++ e2) = dupdate (dupdate d e1) e2 := by
  simp [dupdate, List.foldl_append]

theorem dlookup_dupdate : ∀ (e d : List (String × ℚ)) (k : String),
    (e.map Prod.fst).Nodup →
    dlookup (dupdate d e) k = dorElse (dlookup e k) (dlookup d k) := by
  intro e
  induction e with
  | nil => intro d k _; simp [dupdate, dlookup, dorElse]
  | cons p rest ih =>
    intro d k hnd
    simp only [List.map_cons, List.nodup_cons] at hnd
    have hstep : dupdate d (p :: rest) = dupdate (dinsert d p.1 p.2) rest := rfl
    rw [hstep, ih _ k hnd.2]
    by_cases hk : k = p.1
    · rw [hk, dlookup_eq_none_of_not_mem rest p.1 hnd.1]
      simp [dorElse, dlookup_dinsert, dlookup]
    · have hk2 : p.1 ≠ k := fun hh => hk hh.symm
      simp only [dlookup_dinsert, dlookup, if_neg hk, if_neg hk2]

theorem opt_iteration_log {B H : Type} (cfg : Config B H) (n : Nat) (sp : B) (i : Nat)
    (s : BState H) :
    (opt_iteration cfg n sp i s).1.all_log_metrics
        = s.all_log_metrics ++ [(cfg.training_forward sp n i s.st.hiddens).log_metrics] ∧
    (opt_iteration cfg n sp i s).1.all_callback_metrics
        = s.all_callback_metrics ++ [(cfg.training_forward sp n i s.st.hiddens).callback_metrics] ∧
    (opt_iteration cfg n sp i s).1.st.hiddens
        = (cfg.training_forward sp n i s.st.hiddens).hiddens := by
  simp only [opt_iteration, optimizer_closure]
  split <;> simp

/-- C8. With two optimizers (and no batch splitting), the merged log
metrics returned by `run_training_batch` are the dict-union of the two
closures' log-metric dictionaries in processing order: a key found in the
second (later-processed) closure's dictionary resolves to that closure's
value, a key found only in the first keeps the first's value, and a key in
neither is absent. -/
theorem merged_log_metrics_merge_law {B H : Type} (cfg : Config B H) (st : TState H)
    (b : B) (n : Nat)
    (hops : cfg.n_optimizers = 2) (htb : cfg.truncated_bptt_steps = none)
    (hhook : hookResponse cfg b ≠ some (-1))
    (hnd0 : ((cfg.training_forward b n 0 none).log_metrics.map Prod.fst).Nodup)
    (hnd1 : ((cfg.training_forward b n 1
        (cfg.training_forward b n 0 none).hiddens).log_metrics.map Prod.fst).Nodup) :
    ∀ k, dlookup (run_training_batch cfg st (some b) n).batch_step_metrics k
      = dorElse
          (dlookup (cfg.training_forward b n 1
            (cfg.training_forward b n 0 none).hiddens).log_metrics k)
          (dlookup (cfg.training_forward b n 0 none).log_metrics k) := by
  intro k
  have hb : (hookResponse cfg b == some (-1)) = false := beq_eq_false_iff_ne.mpr hhook
  have hrange : List.range cfg.n_optimizers = [0, 1] := by rw [hops]; rfl
  have hmetrics : (run_training_batch cfg st (some b) n).batch_step_metrics
      = dupdate [] ((split_loop cfg n [b]
          ⟨{ st with hiddens := none }, [], [], []⟩).1.all_log_metrics).flatten := by
    simp [run_training_batch, hb, htb]
  have hsplit : (split_loop cfg n [b] (⟨{ st with hiddens := none }, [], [], []⟩ : BState H)).1
      = (opt_loop cfg n b (List.range cfg.n_optimizers)
          ⟨{ st with hiddens := none }, [], [], []⟩).1 := by
    simp [split_loop]
  have hopt : (opt_loop cfg n b [0, 1] (⟨{ st with hiddens := none }, [], [], []⟩ : BState H)).1
      = (opt_iteration cfg n b 1
          (opt_iteration cfg n b 0 ⟨{ st with hiddens := none }, [], [], []⟩).1).1 := by
    simp [opt_loop]
  obtain ⟨hl0, -, hh0⟩ :=
    opt_iteration_log cfg n b 0 (⟨{ st with hiddens := none }, [], [], []⟩ : BState H)
  obtain ⟨hl1, -, -⟩ := opt_iteration_log cfg n b 1
    (opt_iteration cfg n b 0 ⟨{ st with hiddens := none }, [], [], []⟩).1
  have hhid : (⟨{ st with hiddens := none }, [], [], []⟩ : BState H).st.hiddens = none := rfl
  rw [hhid] at hl0 hh0
  rw [hh0] at hl1
  have hall : (split_loop cfg n [b] (⟨{ st with hiddens := none }, [], [], []⟩ : BState H)).1.all_log_metrics
      = [(cfg.training_forward b n 0 none).log_metrics,
         (cfg.training_forward b n 1 (cfg.training_forward b n 0 none).hiddens).log_metrics] := by
    rw [hsplit, hrange, hopt, hl1, hl0]
    simp
  rw [hmetrics, hall]
  simp only [List.flatten_cons, List.flatten_nil, List.append_nil]
  rw [dupdate_append, dlookup_dupdate _ _ k hnd1, dlookup_dupdate _ _ k hnd0]
  simp [dlookup, dorElse_none]

/-- A two-optimizer forward stub whose two closures report overlapping log
metric keys: optimizer 0 reports `a` and `c`, optimizer 1 reports `b` and
`c`. -/
def fwd8 : Nat → Nat → Nat → Option Nat → ForwardOutput Nat :=
  fun _ _ i _ =>
    if i == 0 then ⟨0, [], [("a", 1), ("c", 5)], [], none⟩
    else ⟨0, [], [("b", 2), ("c", 7)], [], none⟩

/-- A two-optimizer configuration using `fwd8`. -/
def cfg8 : Config Nat Nat := { cfgSlow with n_optimizers := 2, training_forward := fwd8 }

/-- Witness for `merged_log_metrics_merge_law` at a concrete input, probing
the overlapping key. -/
theorem merged_log_metrics_merge_law_witness :
    dlookup (run_training_batch cfg8 stW (some 0) 0).batch_step_metrics "c"
      = dorElse
          (dlookup (cfg8.training_forward 0 0 1
            (cfg8.training_forward 0 0 0 none).hiddens).log_metrics "c")
          (dlookup (cfg8.training_forward 0 0 0 none).log_metrics "c") :=
  merged_log_metrics_merge_law cfg8 stW 0 0 rfl rfl (by decide)
    (by decide) (by decide) "c"

/-- The hidden-state inputs of the `training_forward` calls recorded in a
trace, in call order. -/
def forwardHiddenInputs {B H : Type} : List (Event B H) → List (Option H)
  | [] => []
  | Event.forward _ _ _ h :: rest => h :: forwardHiddenInputs rest
  | _ :: rest => forwardHiddenInputs rest

theorem forwardHiddenInputs_append {B H : Type} (a b : List (Event B H)) :
    forwardHiddenInputs (a ++ b) = forwardHiddenInputs a ++ forwardHiddenInputs b := by
  induction a with
  | nil => simp [forwardHiddenInputs]
  | cons ev rest ih => cases ev <;> simp [forwardHiddenInputs, ih]

/-- The chain of hidden states threaded through successive splits when each
split runs a single forward (one optimizer): the head is the initial carry
and each following entry is the model's hidden output on the previous
split. -/
def threadHiddens {B H : Type} (cfg : Config B H) (batch_nb : Nat) :
    List B → Option H → List (Option H)
  | [], _ => []
  | sp :: rest, h =>
    h :: threadHiddens cfg batch_nb rest (cfg.training_forward sp batch_nb 0 h).hiddens

theorem fhi_opt_iteration {B H : Type} (cfg : Config B H) (n : Nat) (sp : B) (i : Nat)
    (s : BState H) :
    forwardHiddenInputs (opt_iteration cfg n sp i s).2 = [s.st.hiddens] := by
  simp only [opt_iteration, optimizer_closure]
  split <;> simp [forwardHiddenInputs]

theorem split_loop_threads {B H : Type} (cfg : Config B H) (n : Nat)
    (hops : cfg.n_optimizers = 1) :
    ∀ (splits : List B) (s : BState H),
    forwardHiddenInputs (split_loop cfg n splits s).2
      = threadHiddens cfg n splits s.st.hiddens := by
  intro splits
  induction splits with
  | nil => intro s; simp [split_loop, threadHiddens, forwardHiddenInputs]
  | cons sp rest ih =>
    intro s
    have hrange : List.range cfg.n_optimizers = [0] := by rw [hops]; rfl
    have hloop2 : (opt_loop cfg n sp [0] s).2 = (opt_iteration cfg n sp 0 s).2 := by
      simp [opt_loop]
    have hloop1 : (opt_loop cfg n sp [0] s).1 = (opt_iteration cfg n sp 0 s).1 := by
      simp [opt_loop]
    have hsl : split_loop cfg n (sp :: rest) s
        = ((split_loop cfg n rest (opt_loop cfg n sp (List.range cfg.n_optimizers) s).1).1,
           (opt_loop cfg n sp (List.range cfg.n_optimizers) s).2
             ++ (split_loop cfg n rest
                  (opt_loop cfg n sp (List.range cfg.n_optimizers) s).1).2) := by
      simp [split_loop]
    rw [hsl]
    simp only [hrange, hloop1, hloop2]
    rw [forwardHiddenInputs_append, fhi_opt_iteration, ih]
    rw [(opt_iteration_log cfg n sp 0 s).2.2]
    simp [threadHiddens]

theorem threadHiddens_length {B H : Type} (cfg : Config B H) (n : Nat) :
    ∀ (splits : List B) (h : Option H),
    (threadHiddens cfg n splits h).length = splits.length := by
  intro splits
  induction splits with
  | nil => intro h; rfl
  | cons sp rest ih => intro h; simp [threadHiddens, ih]

theorem threadHiddens_get_zero {B H : Type} (cfg : Config B H) (n : Nat)
    (splits : List B) (h : Option H) (hl : 0 < (threadHiddens cfg n splits h).length) :
    (threadHiddens cfg n splits h).get ⟨0, hl⟩ = h := by
  cases splits with
  | nil => simp [threadHiddens] at hl
  | cons sp rest => rfl

theorem threadHiddens_get_succ {B H : Type} (cfg : Config B H) (n : Nat) :
    ∀ (splits : List B) (h : Option H) (i : Nat)
      (hi1 : i + 1 < (threadHiddens cfg n splits h).length) (hi2 : i < splits.length),
    (threadHiddens cfg n splits h).get ⟨i + 1, hi1⟩
      = (cfg.training_forward (splits.get ⟨i, hi2⟩) n 0
          ((threadHiddens cfg n splits h).get ⟨i, by omega⟩)).hiddens := by
  intro splits
  induction splits with
  | nil => intro h i hi1 hi2; simp [threadHiddens] at hi1
  | cons sp rest ih =>
    intro h i hi1 hi2
    match i with
    | 0 =>
      have hl : 0 < (threadHiddens cfg n rest
          (cfg.training_forward sp n 0 h).hiddens).length := by
        simp only [threadHiddens, List.length_cons] at hi1
        omega
      have hz := threadHiddens_get_zero cfg n rest (cfg.training_forward sp n 0 h).hiddens hl
      simp only [threadHiddens, List.get]
      exact hz
    | j + 1 =>
      have hi1r : j + 1 < (threadHiddens cfg n rest
          (cfg.training_forward sp n 0 h).hiddens).length := by
        simp only [threadHiddens, List.length_cons] at hi1
        omega
      have hi2r : j < rest.length := by
        simp only [List.length_cons] at hi2
        omega
      have hrec := ih (cfg.training_forward sp n 0 h).hiddens j hi1r hi2r
      simp only [threadHiddens, List.get]
      exact hrec

/-- C6. With truncated backprop configured (one optimizer per split), the
hidden-state inputs of the successive `training_forward` calls of one
`run_training_batch` satisfy: there is exactly one forward per split, the
first forward receives `none` — the hidden state is reset at the start of
every top-level batch, whatever carry the previous batch left — and the
forward of split `i+1` receives exactly the hidden state produced by the
forward of split `i`. -/
theorem tbptt_hidden_threading {B H : Type} (cfg : Config B H) (st : TState H) (b : B)
    (n steps : Nat) (hops : cfg.n_optimizers = 1)
    (htb : cfg.truncated_bptt_steps = some steps)
    (hhook : hookResponse cfg b ≠ some (-1)) :
    (forwardHiddenInputs (run_training_batch cfg st (some b) n).events).length
        = (cfg.tbptt_split_batch b steps).length ∧
    (∀ hl : 0 < (forwardHiddenInputs (run_training_batch cfg st (some b) n).events).length,
      (forwardHiddenInputs (run_training_batch cfg st (some b) n).events).get ⟨0, hl⟩
        = none) ∧
    (∀ (i : Nat)
       (hi1 : i + 1
          < (forwardHiddenInputs (run_training_batch cfg st (some b) n).events).length)
       (hi2 : i < (cfg.tbptt_split_batch b steps).length),
      (forwardHiddenInputs (run_training_batch cfg st (some b) n).events).get ⟨i + 1, hi1⟩
        = (cfg.training_forward ((cfg.tbptt_split_batch b steps).get ⟨i, hi2⟩) n 0
            ((forwardHiddenInputs (run_training_batch cfg st (some b) n).events).get
              ⟨i, by omega⟩)).hiddens) := by
  have hb : (hookResponse cfg b == some (-1)) = false := beq_eq_false_iff_ne.mpr hhook
  have hev : (run_training_batch cfg st (some b) n).events
      = (split_loop cfg n (cfg.tbptt_split_batch b steps)
          ⟨{ st with hiddens := none }, [], [], []⟩).2 := by
    simp [run_training_batch, hb, htb]
  have hfhi : forwardHiddenInputs (run_training_batch cfg st (some b) n).events
      = threadHiddens cfg n (cfg.tbptt_split_batch b steps) none := by
    rw [hev, split_loop_threads cfg n hops]
  refine ⟨?_, ?_, ?_⟩
  · rw [hfhi, threadHiddens_length]
  · intro hl
    rw [List.get_of_eq hfhi]
    exact threadHiddens_get_zero cfg n (cfg.tbptt_split_batch b steps) none _
  · intro i hi1 hi2
    have hi1t : i + 1 < (threadHiddens cfg n (cfg.tbptt_split_batch b steps)
        (none : Option H)).length := by rw [← hfhi]; exact hi1
    simp only [List.get_of_eq hfhi]
    exact threadHiddens_get_succ cfg n (cfg.tbptt_split_batch b steps) none i hi1t hi2

/-- A truncated-backprop configuration: each batch splits into three
sub-batches and the model's hidden output accumulates the split value. -/
def cfg6 : Config Nat Nat :=
  { cfgSlow with
      truncated_bptt_steps := some 2
      tbptt_split_batch := fun b _ => [b, b + 1, b + 2]
      training_forward := fun sp _ _ h => ⟨0, [], [], [], some (sp + h.getD 0)⟩ }

/-- Witness for `tbptt_hidden_threading` at a concrete input. -/
theorem tbptt_hidden_threading_witness :
    (forwardHiddenInputs (run_training_batch cfg6 stW (some 5) 0).events).length
        = (cfg6.tbptt_split_batch 5 2).length :=
  (tbptt_hidden_threading cfg6 stW 5 0 2 rfl rfl (by decide)).1

/-- Variant of `cfgSlow` with a batch limit large enough for a 101-batch epoch. -/
def cfg7 : Config Nat Nat := { cfgSlow with nb_training_batches := 1000 }

/-- C7, counterexample. The running-loss list is **not** capped at 100
entries: running a fresh trainer (`accumulate_grad_batches = 1`, so one
optimizer step per batch) over an epoch of 101 batches leaves 101 entries
in `running_loss` — the code only appends and never truncates; the `[-100:]`
slice is applied to the average alone. -/
theorem running_loss_window_counterexample :
    100 < (run_epoch_go cfg7 stW (List.replicate 101 (some 0)) 0).1.running_loss.length :=
  of_decide_eq_true (by set_option maxRecDepth 100000 in with_unfolding_all rfl)

theorem optimizer_closure_fixed {B H : Type} (cfg : Config B H) (n : Nat) (sp : B)
    (i : Nat) (s : BState H) :
    (optimizer_closure cfg n sp i s).2.1.st.accumulate_grad_batches
        = s.st.accumulate_grad_batches ∧
    (optimizer_closure cfg n sp i s).2.1.st.running_loss = s.st.running_loss ∧
    (optimizer_closure cfg n sp i s).2.1.st.batch_loss_value = s.st.batch_loss_value ∧
    (optimizer_closure cfg n sp i s).2.1.st.current_epoch = s.st.current_epoch := by
  simp [optimizer_closure]

/-- C7, amended. After the per-optimizer body of `run_training_batch`:
when the slot's accumulation counter (as bumped by the closure) has reached
`accumulate_grad_batches` — exactly the condition under which
`optimizer_step` is invoked — `batch_loss_value` plus the closure loss is
appended to the (unbounded) `running_loss` list, `batch_loss_value` is
reset to 0, and the displayed average is recomputed from only the last 100
entries of that list; otherwise the list is unchanged, the loss keeps
accumulating in `batch_loss_value`, and no optimizer step happens. -/
theorem running_loss_window_amended {B H : Type} (cfg : Config B H) (n : Nat) (sp : B)
    (i : Nat) (s : BState H) :
    (((s.st.accumulate_grad_batches : ℚ)
        ≤ (optimizer_closure cfg n sp i s).2.1.st.opt_accum.getD i 0) →
      ((opt_iteration cfg n sp i s).1.st.running_loss
          = s.st.running_loss
            ++ [s.st.batch_loss_value + (optimizer_closure cfg n sp i s).1] ∧
       (opt_iteration cfg n sp i s).1.st.batch_loss_value = 0 ∧
       (opt_iteration cfg n sp i s).1.st.avg_loss
          = npMean (lastN 100 (opt_iteration cfg n sp i s).1.st.running_loss) ∧
       Event.optStep s.st.current_epoch n i ∈ (opt_iteration cfg n sp i s).2)) ∧
    ((¬ ((s.st.accumulate_grad_batches : ℚ)
        ≤ (optimizer_closure cfg n sp i s).2.1.st.opt_accum.getD i 0)) →
      ((opt_iteration cfg n sp i s).1.st.running_loss = s.st.running_loss ∧
       (opt_iteration cfg n sp i s).1.st.batch_loss_value
          = s.st.batch_loss_value + (optimizer_closure cfg n sp i s).1 ∧
       (∀ e m j, Event.optStep e m j ∉ (opt_iteration cfg n sp i s).2))) := by
  constructor
  · intro hcond
    simp only [optimizer_closure] at hcond
    simp only [opt_iteration, optimizer_closure]
    split
    · simp [List.mem_append]
    · rename_i hif
      exact absurd (by simpa using hcond) (by simpa using hif)
  · intro hcond
    simp only [optimizer_closure] at hcond
    simp only [opt_iteration, optimizer_closure]
    split
    · rename_i hif
      exact absurd (by simpa using hif) (by simpa using hcond)
    · refine ⟨by simp, by simp, ?_⟩
      intro e m j hmem
      simp at hmem

/-- The `BState` of a fresh `run_training_batch` call on the fresh trainer
state. -/
def bsW : BState Nat := ⟨stW, [], [], []⟩

/-- Witness for `running_loss_window_amended` at a concrete input where the
accumulation threshold is reached. -/
theorem running_loss_window_amended_witness :
    (opt_iteration cfg7 0 0 0 bsW).1.st.running_loss
        = bsW.st.running_loss
          ++ [bsW.st.batch_loss_value + (optimizer_closure cfg7 0 0 0 bsW).1] ∧
    (opt_iteration cfg7 0 0 0 bsW).1.st.batch_loss_value = 0 ∧
    (opt_iteration cfg7 0 0 0 bsW).1.st.avg_loss
        = npMean (lastN 100 (opt_iteration cfg7 0 0 0 bsW).1.st.running_loss) ∧
    Event.optStep bsW.st.current_epoch 0 0 ∈ (opt_iteration cfg7 0 0 0 bsW).2 :=
  (running_loss_window_amended cfg7 0 0 0 bsW).1
    (of_decide_eq_true (by with_unfolding_all rfl))

theorem opt_iteration_accum {B H : Type} (cfg : Config B H) (j : Nat) (b : B) (K : Nat)
    (c : ℚ)
    (hdef : ∀ (sp : B) (m : Nat) (h : Option H),
      (dlookup (cfg.training_forward sp m 0 h).callback_metrics
        "batch_loss_efficiency_ratio").getD 1 = 1)
    (s : BState H) (hacc : s.st.accumulate_grad_batches = K) (hctr : s.st.opt_accum = [c]) :
    (opt_iteration cfg j b 0 s).2
        = [Event.forward b j 0 s.st.hiddens,
           Event.backward j 0 ((cfg.training_forward b j 0 s.st.hiddens).loss * (1 / (K:ℚ)))]
          ++ (if (K:ℚ) ≤ c + 1 then [Event.optStep s.st.current_epoch j 0] else []) ∧
    (opt_iteration cfg j b 0 s).1.st.opt_accum
        = [if (K:ℚ) ≤ c + 1 then (0:ℚ) else c + 1] := by
  simp only [opt_iteration, optimizer_closure, hdef, hctr, hacc, List.set_cons_zero,
    List.getD_cons_zero]
  split <;> simp

theorem run_training_batch_accum {B H : Type} (cfg : Config B H) (j : Nat) (b : B) (K : Nat)
    (c : ℚ)
    (hops : cfg.n_optimizers = 1) (htb : cfg.truncated_bptt_steps = none)
    (hdef : ∀ (sp : B) (m : Nat) (h : Option H),
      (dlookup (cfg.training_forward sp m 0 h).callback_metrics
        "batch_loss_efficiency_ratio").getD 1 = 1)
    (st : TState H) (hacc : st.accumulate_grad_batches = K) (hctr : st.opt_accum = [c])
    (hhook : hookResponse cfg b ≠ some (-1)) :
    (run_training_batch cfg st (some b) j).events
        = [Event.forward b j 0 none,
           Event.backward j 0 ((cfg.training_forward b j 0 none).loss * (1 / (K:ℚ)))]
          ++ (if (K:ℚ) ≤ c + 1 then [Event.optStep st.current_epoch j 0] else []) ∧
    (run_training_batch cfg st (some b) j).st.opt_accum
        = [if (K:ℚ) ≤ c + 1 then (0:ℚ) else c + 1] := by
  have hb : (hookResponse cfg b == some (-1)) = false := beq_eq_false_iff_ne.mpr hhook
  have hrange : List.range cfg.n_optimizers = [0] := by rw [hops]; rfl
  have hev : (run_training_batch cfg st (some b) j).events
      = (opt_iteration cfg j b 0 ⟨{ st with hiddens := none }, [], [], []⟩).2 := by
    simp [run_training_batch, hb, htb, split_loop, hrange, opt_loop]
  have hst : (run_training_batch cfg st (some b) j).st.opt_accum
      = (opt_iteration cfg j b 0 ⟨{ st with hiddens := none }, [], [], []⟩).1.st.opt_accum := by
    simp [run_training_batch, hb, htb, split_loop, hrange, opt_loop]
  obtain ⟨he, ha⟩ := opt_iteration_accum cfg j b K c hdef
    (⟨{ st with hiddens := none }, [], [], []⟩ : BState H) hacc hctr
  rw [hev, hst, he, ha]
  exact ⟨rfl, rfl⟩

theorem accum_threshold_iff (K j : Nat) (hK : 1 ≤ K) :
    ((K : ℚ) ≤ ((j % K : Nat) : ℚ) + 1) ↔ (j + 1) % K = 0 := by
  have hlt : j % K < K := Nat.mod_lt _ (by omega)
  have hcast : (((j % K : Nat) : ℚ) + 1) = ((j % K + 1 : Nat) : ℚ) := by push_cast; ring
  rw [hcast, Nat.cast_le]
  constructor
  · intro h
    have h3 : j % K + 1 = K := by omega
    rcases Nat.lt_or_ge 1 K with h1 | h1
    · have hone : 1 % K = 1 := Nat.mod_eq_of_lt h1
      rw [Nat.add_mod, hone, h3, Nat.mod_self]
    · have hK1 : K = 1 := by omega
      simp [hK1, Nat.mod_one]
  · intro h
    rcases Nat.lt_or_ge 1 K with h1 | h1
    · have hone : 1 % K = 1 := Nat.mod_eq_of_lt h1
      rw [Nat.add_mod, hone] at h
      by_contra hcon
      have h4 : j % K + 1 < K := by omega
      rw [Nat.mod_eq_of_lt h4] at h
      omega
    · have hK1 : K = 1 := by omega
      omega
theorem accum_counter_next (K j : Nat) (hK : 1 ≤ K) :
    (if (K : ℚ) ≤ ((j % K : Nat) : ℚ) + 1 then (0 : ℚ) else ((j % K : Nat) : ℚ) + 1)
      = (((j + 1) % K : Nat) : ℚ) := by
  by_cases h : (K : ℚ) ≤ ((j % K : Nat) : ℚ) + 1
  · rw [if_pos h, (accum_threshold_iff K j hK).mp h]
    simp
  · rw [if_neg h]
    have h2 : ¬ K ≤ j % K + 1 := by
      intro hh
      exact h (by exact_mod_cast hh)
    have h3 : j % K + 1 < K := by omega
    have h4 : (j + 1) % K = j % K + 1 := by
      have hone : 1 % K = 1 := Nat.mod_eq_of_lt (by omega)
      rw [Nat.add_mod, hone, Nat.mod_eq_of_lt h3]
    rw [h4]
    push_cast
    ring

theorem epoch_step_mem_compute {B H : Type} (cfg : Config B H) (st : TState H)
    (b : Option B) (n : Nat) (ev : Event B H) (hev : ev.isCompute = true) :
    ev ∈ (epoch_step cfg st b n).events ↔ ev ∈ (run_training_batch cfg st b n).events := by
  simp only [epoch_step, List.mem_append, mem_ite_singleton]
  constructor
  · rintro (((h | h) | h) | h)
    · exact h
    · rw [h.2] at hev
      simp [Event.isCompute] at hev
    · rw [h.2] at hev
      simp [Event.isCompute] at hev
    · rw [h.2] at hev
      simp [Event.isCompute] at hev
  · intro h
    exact Or.inl (Or.inl (Or.inl h))

theorem not_mem_epoch_go_of_tag_lt {B H : Type} (cfg : Config B H)
    (batches : List (Option B)) (st : TState H) (i : Nat) (ev : Event B H) (m : Nat)
    (htag : ev.batchTag = some m) (hlt : m < i) :
    ev ∉ (run_epoch_go cfg st batches i).2 := by
  intro hmem
  obtain ⟨m2, hm2, htag2⟩ := run_epoch_go_events cfg batches st i ev hmem
  rw [htag] at htag2
  simp at htag2
  omega

theorem epoch_step_opt_accum {B H : Type} (cfg : Config B H) (st : TState H)
    (b : Option B) (n : Nat) :
    (epoch_step cfg st b n).st.opt_accum = (run_training_batch cfg st b n).st.opt_accum := by
  simp [epoch_step]

theorem accum_go {B H : Type} (cfg : Config B H) (K e : Nat)
    (hops : cfg.n_optimizers = 1) (htb : cfg.truncated_bptt_steps = none)
    (hfast : cfg.fast_dev_run = false) (hK : 1 ≤ K)
    (hdef : ∀ (sp : B) (m : Nat) (h : Option H),
      (dlookup (cfg.training_forward sp m 0 h).callback_metrics
        "batch_loss_efficiency_ratio").getD 1 = 1) :
    ∀ (batches : List B) (i : Nat) (st : TState H),
    (∀ b ∈ batches, hookResponse cfg b ≠ some (-1)) →
    i + batches.length ≤ cfg.nb_training_batches →
    st.accumulate_grad_batches = K → st.opt_accum = [((i % K : Nat) : ℚ)] →
    st.current_epoch = e →
    ∀ (p : Nat) (hp : p < batches.length),
      ((Event.optStep e (i + p) 0 ∈ (run_epoch_go cfg st (batches.map some) i).2)
          ↔ (i + p + 1) % K = 0) ∧
      (∀ l : ℚ,
        (Event.backward (i + p) 0 l ∈ (run_epoch_go cfg st (batches.map some) i).2)
          ↔ l = (cfg.training_forward (batches.get ⟨p, hp⟩) (i + p) 0 none).loss
                * (1 / (K : ℚ))) := by
  intro batches
  induction batches with
  | nil => intro i st _ _ _ _ _ p hp; simp at hp
  | cons b rest ih =>
    intro i st hhook hlen hacc hctr hep p hp
    have hres := run_training_batch_result cfg st b i (hhook b (by simp))
    obtain ⟨hbe, hba⟩ := run_training_batch_accum cfg i b K (((i % K : Nat) : ℚ))
      hops htb hdef st hacc hctr (hhook b (by simp))
    rw [hep] at hbe
    have hbrk : (epoch_step cfg st (some b) i).brk = false := by
      simp only [epoch_step, hres, hfast]
      simp only [List.length_cons] at hlen
      simp
      omega
    have hgo2 : (run_epoch_go cfg st ((b :: rest).map some) i).2
        = (epoch_step cfg st (some b) i).events
          ++ (run_epoch_go cfg (epoch_step cfg st (some b) i).st (rest.map some) (i + 1)).2 := by
      simp only [List.map_cons, run_epoch_go, hbrk, Bool.false_eq_true, if_false]
    have hacc2 : (epoch_step cfg st (some b) i).st.accumulate_grad_batches = K := by
      rw [(epoch_step_increments cfg st (some b) i).2.2.2, hacc]
    have hep2 : (epoch_step cfg st (some b) i).st.current_epoch = e := by
      rw [(epoch_step_increments cfg st (some b) i).2.2.1, hep]
    have hctr2 : (epoch_step cfg st (some b) i).st.opt_accum
        = [(((i + 1) % K : Nat) : ℚ)] := by
      rw [epoch_step_opt_accum, hba, accum_counter_next K i hK]
    have hstep_opt : Event.optStep e i 0 ∈ (epoch_step cfg st (some b) i).events
        ↔ (K : ℚ) ≤ ((i % K : Nat) : ℚ) + 1 := by
      rw [epoch_step_mem_compute cfg st (some b) i (Event.optStep e i 0) rfl, hbe]
      simp [mem_ite_singleton]
    have hstep_back : ∀ l : ℚ,
        (Event.backward i 0 l ∈ (epoch_step cfg st (some b) i).events
          ↔ l = (cfg.training_forward b i 0 none).loss * (1 / (K : ℚ))) := by
      intro l
      rw [epoch_step_mem_compute cfg st (some b) i (Event.backward i 0 l) rfl, hbe]
      simp [mem_ite_singleton]
    match p with
    | 0 =>
      simp only [Nat.add_zero]
      constructor
      · rw [hgo2, List.mem_append]
        constructor
        · rintro (hm | hm)
          · exact (accum_threshold_iff K i hK).mp (hstep_opt.mp hm)
          · exact absurd hm (not_mem_epoch_go_of_tag_lt cfg _ _ (i + 1) _ i rfl (by omega))
        · intro hcond
          exact Or.inl (hstep_opt.mpr ((accum_threshold_iff K i hK).mpr hcond))
      · intro l
        rw [hgo2, List.mem_append]
        constructor
        · rintro (hm | hm)
          · exact (hstep_back l).mp hm
          · exact absurd hm (not_mem_epoch_go_of_tag_lt cfg _ _ (i + 1) _ i rfl (by omega))
        · intro hl
          exact Or.inl ((hstep_back l).mpr hl)
    | p' + 1 =>
      have hp2 : p' < rest.length := by
        simp only [List.length_cons] at hp
        omega
      have hlen2 : (i + 1) + rest.length ≤ cfg.nb_training_batches := by
        simp only [List.length_cons] at hlen
        omega
      have ihx := ih (i + 1) (epoch_step cfg st (some b) i).st
        (fun x hx => hhook x (by simp [hx])) hlen2 hacc2 hctr2 hep2 p' hp2
      have heq : i + (p' + 1) = (i + 1) + p' := by omega
      rw [hgo2]
      constructor
      · rw [heq, List.mem_append]
        constructor
        · rintro (hm | hm)
          · have htag := epoch_step_events cfg st (some b) i _ hm
            simp [Event.batchTag] at htag
            omega
          · exact ihx.1.mp hm
        · intro hcond
          exact Or.inr (ihx.1.mpr hcond)
      · intro l
        rw [heq, List.mem_append]
        have hget : (b :: rest).get ⟨p' + 1, hp⟩ = rest.get ⟨p', hp2⟩ := rfl
        rw [hget]
        constructor
        · rintro (hm | hm)
          · have htag := epoch_step_events cfg st (some b) i _ hm
            simp [Event.batchTag] at htag
            omega
          · exact (ihx.2 l).mp hm
        · intro hl
          exact Or.inr ((ihx.2 l).mpr hl)

/-- C3. With `accumulate_grad_batches = K`, one optimizer, one split per
batch and every closure reporting efficiency ratio 1.0 (the default), over
an epoch of fully completed batches: `optimizer_step` is invoked exactly on
the batches whose 1-based number is a multiple of K; the loss handed to
`backward` on batch `j` is the raw forward loss of batch `j` divided by K;
and on any such batch the slot's accumulation counter is reset to 0.0
exactly when the step threshold is reached, else it keeps the incremented
value. -/
theorem accumulation_schedule {B H : Type} (cfg : Config B H) (st : TState H)
    (batches : List B) (K e : Nat)
    (hops : cfg.n_optimizers = 1) (htb : cfg.truncated_bptt_steps = none)
    (hfast : cfg.fast_dev_run = false) (hK : 1 ≤ K)
    (hdef : ∀ (sp : B) (m : Nat) (h : Option H),
      (dlookup (cfg.training_forward sp m 0 h).callback_metrics
        "batch_loss_efficiency_ratio").getD 1 = 1)
    (hhook : ∀ b ∈ batches, hookResponse cfg b ≠ some (-1))
    (hlen : batches.length ≤ cfg.nb_training_batches)
    (hacc : st.accumulate_grad_batches = K) (hctr : st.opt_accum = [0])
    (hep : st.current_epoch = e) :
    (∀ (j : Nat) (hj : j < batches.length),
      ((Event.optStep e j 0 ∈ (run_epoch_go cfg st (batches.map some) 0).2)
          ↔ (j + 1) % K = 0) ∧
      (∀ l : ℚ,
        (Event.backward j 0 l ∈ (run_epoch_go cfg st (batches.map some) 0).2)
          ↔ l = (cfg.training_forward (batches.get ⟨j, hj⟩) j 0 none).loss / (K : ℚ))) ∧
    (∀ (st2 : TState H) (b2 : B) (m : Nat) (c : ℚ),
      st2.accumulate_grad_batches = K → st2.opt_accum = [c] →
      hookResponse cfg b2 ≠ some (-1) →
      (run_training_batch cfg st2 (some b2) m).st.opt_accum
        = [if (K : ℚ) ≤ c + 1 then (0 : ℚ) else c + 1]) := by
  constructor
  · intro j hj
    have hctr0 : st.opt_accum = [((0 % K : Nat) : ℚ)] := by simpa using hctr
    have h := accum_go cfg K e hops htb hfast hK hdef batches 0 st hhook (by omega)
      hacc hctr0 hep j hj
    simp only [Nat.zero_add] at h
    refine ⟨h.1, fun l => ?_⟩
    rw [mul_one_div] at h
    exact h.2 l
  · intro st2 b2 m c hacc2 hctr2 hhook2
    exact (run_training_batch_accum cfg m b2 K c hops htb hdef st2 hacc2 hctr2 hhook2).2

/-- The fresh trainer state with `accumulate_grad_batches = 2`. -/
def st3 : TState Nat := { stW with accumulate_grad_batches := 2 }

/-- Witness for `accumulation_schedule` on a concrete 4-batch epoch with
K = 2: batch 1 (0-indexed) takes an optimizer step. -/
theorem accumulation_schedule_witness :
    (Event.optStep 0 1 0 ∈ (run_epoch_go cfgSlow st3 ([0, 1, 2, 3].map some) 0).2)
      ↔ (1 + 1) % 2 = 0 :=
  ((accumulation_schedule cfgSlow st3 [0, 1, 2, 3] 2 0 rfl rfl rfl (by decide)
      (fun sp m h => rfl)
      (by intro b _; simp [hookResponse, cfgSlow, cfgW])
      (by decide) rfl rfl rfl).1 1 (by decide)).1
